import Mathlib

/-!
Verification development for the AWS ALB event adapter
(`mangum/handlers/aws_alb.py`).

Modelling conventions:
* Python byte/character strings are lists of natural-number code points
  (`Str`); the adapter only manipulates them byte-wise.
* Python dicts are insertion-ordered association lists; assignment is
  `dictInsert` (replace in place, else append), lookup is `dictGet`.
* Fallible Python code returns `Except PyErr`; `PyErr` has one
  constructor per exception class the code can actually raise
  (`KeyError`, `ValueError`, `binascii.Error`).
* The standard-library collaborators (percent-encoding, form decoding,
  base64, integer parsing), which the spec treats as external utilities
  with standard contracts, are modelled from those standard contracts.
-/

/-- Byte strings: lists of natural number code points. -/
abbrev Str := List Nat

/-- Convenience conversion from Lean string literals to `Str`. -/
def str (s : String) : Str := s.toList.map Char.toNat

/-- ASCII lower-casing of one byte (Python `str.lower` on ASCII). -/
def byteLower (c : Nat) : Nat := if 65 ≤ c && c ≤ 90 then c + 32 else c

/-- ASCII upper-casing of one byte (Python `str.upper` on ASCII). -/
def byteUpper (c : Nat) : Nat := if 97 ≤ c && c ≤ 122 then c - 32 else c

/-- Lower-case a whole string, byte by byte. -/
def listLower (s : Str) : Str := s.map byteLower

/-- Value of one hexadecimal digit character, if it is one. -/
def hexVal (c : Nat) : Option Nat :=
  if 48 ≤ c && c ≤ 57 then some (c - 48)
  else if 65 ≤ c && c ≤ 70 then some (c - 55)
  else if 97 ≤ c && c ≤ 102 then some (c - 87)
  else none

/-- Upper-case hexadecimal digit character for a value below 16. -/
def hexDigit (n : Nat) : Nat := if n < 10 then 48 + n else 55 + n

/-- Modelled from the spec: the external percent-decoding primitive
(`urllib.parse.unquote` restricted to bytes).  A `%` followed by two hex
digits decodes to that byte; an invalid escape is kept literally. -/
def pctDecode : List Nat → List Nat
  | [] => []
  | 37 :: h1 :: h2 :: rest2 =>
    match hexVal h1, hexVal h2 with
    | some a, some b => (16 * a + b) :: pctDecode rest2
    | _, _ => 37 :: pctDecode (h1 :: h2 :: rest2)
  | c :: rest => c :: pctDecode rest

/-- Replace every plus sign by a space (form decoding treats `+` as space). -/
def plusToSpace (s : Str) : Str := s.map fun c => if c == 43 then 32 else c

/-- Modelled from the spec: `urllib.parse.unquote` (percent-decoding only). -/
def unquote (s : Str) : Str := pctDecode s

/-- Modelled from the spec: `urllib.parse.unquote_plus` — plus signs become
spaces, then percent-escapes are decoded. -/
def unquotePlus (s : Str) : Str := pctDecode (plusToSpace s)

/-- Bytes that `urllib.parse.quote_plus` leaves unencoded
(alphanumerics and `_`, `.`, `-`, `~`). -/
def isSafeByte (c : Nat) : Bool :=
  (48 ≤ c && c ≤ 57) || (65 ≤ c && c ≤ 90) || (97 ≤ c && c ≤ 122) ||
    c == 95 || c == 46 || c == 45 || c == 126

/-- Modelled from the spec: `urllib.parse.quote_plus` — safe bytes kept,
space becomes `+`, everything else becomes an uppercase percent escape. -/
def quotePlus (s : Str) : Str :=
  s.flatMap fun c =>
    if isSafeByte c then [c]
    else if c == 32 then [43]
    else [37, hexDigit (c / 16), hexDigit (c % 16)]

/-- Join strings with `&` separators. -/
def joinAmp : List Str → Str
  | [] => []
  | [f] => f
  | f :: fs => f ++ 38 :: joinAmp fs

/-- Modelled from the spec: `urllib.parse.urlencode` — each pair becomes
`quote_plus(key) = quote_plus(value)`, pairs joined by `&`. -/
def urlencode (pairs : List (Str × Str)) : Str :=
  joinAmp (pairs.map fun p => quotePlus p.1 ++ 61 :: quotePlus p.2)

/-- Split a string on a separator byte (Python `str.split` with one
separator; the empty string yields one empty field). -/
def splitSep (sep : Nat) : List Nat → List (List Nat)
  | [] => [[]]
  | c :: rest =>
    if c == sep then [] :: splitSep sep rest
    else
      match splitSep sep rest with
      | [] => [[c]]
      | f :: fs => (c :: f) :: fs

/-- Split a string at the first occurrence of a separator byte, if any. -/
def splitFirst (sep : Nat) : List Nat → Option (List Nat × List Nat)
  | [] => none
  | c :: rest =>
    if c == sep then some ([], rest)
    else (splitFirst sep rest).map fun p => (c :: p.1, p.2)

/-- Decoding of one `key=value` field of a form-encoded string: an empty
field is skipped, a field without `=` is a name with empty value, and
name and value are form-decoded. -/
def decodeField (field : Str) : Option (Str × Str) :=
  if field.isEmpty then none
  else
    match splitFirst 61 field with
    | some kv => some (unquotePlus kv.1, unquotePlus kv.2)
    | none => some (unquotePlus field, [])

/-- Modelled from the spec: standard `application/x-www-form-urlencoded`
decoding — split on `&`, then decode each nonempty field. -/
def formDecode (s : Str) : List (Str × Str) :=
  (splitSep 38 s).filterMap decodeField

/-- Check that every code point of a string fits in one byte. -/
def allBytesLtB (s : Str) : Bool := s.all fun c => c < 256

/-- Byte-validity of an optional multi-value query parameter mapping. -/
def mvBytesOK (o : Option (List (Str × List Str))) : Bool :=
  o.elim true fun ps => ps.all fun kv => allBytesLtB kv.1 && kv.2.all allBytesLtB

/-- Byte-validity of an optional single-value query parameter mapping. -/
def qsBytesOK (o : Option (List (Str × Str))) : Bool :=
  o.elim true fun ps => ps.all fun kv => allBytesLtB kv.1 && allBytesLtB kv.2

/-- Exceptions the adapter code can raise, as values. -/
inductive PyErr where
  | keyError : Str → PyErr
  | valueError : PyErr
  | binasciiError : PyErr
deriving DecidableEq

/-- Value of one base64 alphabet character, if it is one. -/
def b64Char (c : Nat) : Option Nat :=
  if 65 ≤ c && c ≤ 90 then some (c - 65)
  else if 97 ≤ c && c ≤ 122 then some (c - 71)
  else if 48 ≤ c && c ≤ 57 then some (c + 4)
  else if c == 43 then some 62
  else if c == 47 then some 63
  else none

/-- Modelled from the spec: the external base64 decoding primitive
(`base64.b64decode`) per the standard contract — groups of four alphabet
characters decode to three bytes, the final group may carry one or two
padding characters, anything else is a decoding error. -/
def b64decode : List Nat → Except PyErr (List Nat)
  | [] => Except.ok []
  | c1 :: c2 :: c3 :: c4 :: rest =>
    match b64Char c1, b64Char c2, b64Char c3, b64Char c4 with
    | some a, some b, some c, some d =>
      match b64decode rest with
      | Except.ok tail =>
        Except.ok ([a * 4 + b / 16, b % 16 * 16 + c / 4, c % 4 * 64 + d] ++ tail)
      | Except.error e => Except.error e
    | some a, some b, some c, none =>
      if c4 == 61 && rest.isEmpty then
        Except.ok [a * 4 + b / 16, b % 16 * 16 + c / 4]
      else Except.error PyErr.binasciiError
    | some a, some b, none, none =>
      if c3 == 61 && c4 == 61 && rest.isEmpty then Except.ok [a * 4 + b / 16]
      else Except.error PyErr.binasciiError
    | _, _, _, _ => Except.error PyErr.binasciiError
  | _ => Except.error PyErr.binasciiError

/-- Digit-sequence value of a nonempty all-digit string. -/
def digitsVal (s : Str) : Option Nat :=
  if s.isEmpty then none
  else if s.all fun c => 48 ≤ c && c ≤ 57 then
    some (s.foldl (fun acc c => acc * 10 + (c - 48)) 0)
  else none

/-- Modelled from the spec: the builtin `int` conversion of a decimal
string, with an optional sign. -/
def parseInt (s : Str) : Option Int :=
  match s with
  | 45 :: rest => (digitsVal rest).map fun n => -(n : Int)
  | 43 :: rest => (digitsVal rest).map fun n => (n : Int)
  | _ => (digitsVal s).map fun n => (n : Int)

/-- Python dict assignment `d[k] = v`: replace the value in place when the
key exists, otherwise append the new pair. -/
def dictInsert (d : List (Str × Str)) (k : Str) (v : Str) : List (Str × Str) :=
  if d.any fun p => p.1 == k then d.map fun p => if p.1 == k then (k, v) else p
  else d ++ [(k, v)]

/-- Python dict lookup: value of the first (hence only) matching key. -/
def dictGet (d : List (Str × Str)) (k : Str) : Option Str :=
  (d.find? fun p => p.1 == k).map Prod.snd

/-- The invocation event, with the keys the adapter reads.  A `none` field
models an absent key; `hasMultiValueHeadersKey` records only the presence
of the `multiValueHeaders` key, since the code never reads its value. -/
structure Event where
  path : Option Str
  httpMethod : Option Str
  headers : Option (List (Str × Str))
  queryStringParameters : Option (List (Str × Str))
  multiValueQueryStringParameters : Option (List (Str × List Str))
  body : Option Str
  isBase64Encoded : Bool
  hasMultiValueHeadersKey : Bool
deriving DecidableEq

/-- The normalized request produced by `AwsAlb.request`. -/
structure Request where
  method : Str
  headers : List (Str × Str)
  path : Str
  scheme : Str
  query_string : Str
  server : Str × Int
  client : Str × Int
  trigger_event : Event
deriving DecidableEq

/-- The normalized response consumed by `AwsAlb.transform_response`. -/
structure Response where
  status : Int
  headers : List (Str × Str)
  body : Str
deriving DecidableEq

/-- The reply structure returned to the load balancer. -/
structure Reply where
  statusCode : Int
  headers : List (Str × Str)
  multiValueHeaders : List (Str × List Str)
  body : Str
  isBase64Encoded : Bool
deriving DecidableEq

/-- Embedding of `all_casings`: every casing of the input, recursively --
for a cased first byte the lowercase variant is produced before the
uppercase variant for each casing of the rest; other bytes are fixed. -/
def all_casings : Str → List Str
  | [] => [[]]
  | c :: rest =>
    if byteLower c == byteUpper c then (all_casings rest).map fun sub => c :: sub
    else (all_casings rest).flatMap fun sub => [byteLower c :: sub, byteUpper c :: sub]

/-- Number of bytes of a string that have distinct lower and upper
casings (that is, its ASCII letters). -/
def countCased (s : Str) : Nat :=
  (s.filter fun c => !(byteLower c == byteUpper c)).length

/-- Embedding of the `queryStringParameters` fallback branch of
`AwsAlb.encode_query_string`. -/
def encodeQsp (ev : Event) : Str :=
  match ev.queryStringParameters with
  | some ps =>
    if ps.isEmpty then []
    else urlencode (ps.map fun kv => (unquotePlus kv.1, unquotePlus kv.2))
  | none => []

/-- Embedding of `AwsAlb.encode_query_string`: take the parameters from
`multiValueQueryStringParameters` when present and non-empty, else from
`queryStringParameters`; decode every key and value with `unquote_plus`
and re-encode the pair list with `urlencode`; with no parameters return
the empty byte string. -/
def encode_query_string (ev : Event) : Str :=
  match ev.multiValueQueryStringParameters with
  | some ps =>
    if ps.isEmpty then encodeQsp ev
    else urlencode (ps.flatMap fun kv => kv.2.map fun v => (unquotePlus kv.1, unquotePlus v))
  | none => encodeQsp ev

/-- Specification-side reference value for the roundtrip claim: the
percent-decoded key/value pairs of the event's query parameters, flattened
in order, from the same source key the adapter selects. -/
def decodedQueryParams (ev : Event) : List (Str × Str) :=
  match ev.multiValueQueryStringParameters with
  | some ps =>
    if ps.isEmpty then
      match ev.queryStringParameters with
      | some qs => qs.map fun kv => (unquotePlus kv.1, unquotePlus kv.2)
      | none => []
    else ps.flatMap fun kv => kv.2.map fun v => (unquotePlus kv.1, unquotePlus v)
  | none =>
    match ev.queryStringParameters with
    | some qs => qs.map fun kv => (unquotePlus kv.1, unquotePlus kv.2)
    | none => []

/-- The lower-cased header dict built at the top of `AwsAlb.request`:
`{k.lower(): v for k, v in event.get("headers", {}).items()}`, guarded by
`if event.get("headers")`. -/
def loweredHeaders (ev : Event) : List (Str × Str) :=
  match ev.headers with
  | some hs =>
    if hs.isEmpty then []
    else hs.foldl (fun d p => dictInsert d (listLower p.1) p.2) []
  | none => []

/-- The server endpoint computation of `AwsAlb.request`: `host` header or
the literal `mangum`; when the name has no colon the port comes from
`x-forwarded-port` (default 80); a colon splits the name into host and
port; ports pass through `int`. -/
def serverOf (headers : List (Str × Str)) : Except PyErr (Str × Int) :=
  let server_name := (dictGet headers (str ("host"))).getD (str ("mangum"))
  if server_name.contains 58 then
    match splitSep 58 server_name with
    | [n, p] =>
      match parseInt p with
      | some k => Except.ok (n, k)
      | none => Except.error PyErr.valueError
    | _ => Except.error PyErr.valueError
  else
    match dictGet headers (str ("x-forwarded-port")) with
    | none => Except.ok (server_name, 80)
    | some s =>
      match parseInt s with
      | some k => Except.ok (server_name, k)
      | none => Except.error PyErr.valueError

/-- Embedding of the `AwsAlb.request` property.  Missing `path` or
`httpMethod` keys raise `KeyError` (plain subscripting in the source); an
empty path becomes `/`; the path is percent-decoded once; header names
are lower-cased; defaults are as in the source. -/
def request (ev : Event) : Except PyErr Request :=
  match ev.path with
  | none => Except.error (PyErr.keyError (str ("path")))
  | some path =>
    match ev.httpMethod with
    | none => Except.error (PyErr.keyError (str ("httpMethod")))
    | some http_method =>
      match serverOf (loweredHeaders ev) with
      | Except.error e => Except.error e
      | Except.ok server =>
        Except.ok
          { method := http_method
            headers := loweredHeaders ev
            path := unquote (if path.isEmpty then str ("/") else path)
            scheme := (dictGet (loweredHeaders ev) (str ("x-forwarded-proto"))).getD (str ("https"))
            query_string := encode_query_string ev
            server := server
            client := ((dictGet (loweredHeaders ev) (str ("x-forwarded-for"))).getD [], 0)
            trigger_event := ev }

/-- Embedding of the `AwsAlb.body` property: missing or empty body is the
empty byte string; with `isBase64Encoded` the body is base64-decoded,
otherwise it passes through as bytes. -/
def body (ev : Event) : Except PyErr Str :=
  let b := match ev.body with
           | some s => s
           | none => []
  if ev.isBase64Encoded then b64decode b else Except.ok b

/-- Keys of an association list in first-occurrence order, deduplicated. -/
def firstKeys : List (Str × Str) → List Str
  | [] => []
  | p :: rest => p.1 :: (firstKeys rest).filter fun k => k ≠ p.1

/-- Modelled from the spec: `AbstractHandler._handle_multi_value_headers`
(declared outside this handler's source file).  The response header pairs
are partitioned by lower-cased name: a name occurring once goes to the
single-valued map, a name occurring more than once goes to the
multi-value map with all its values in order. -/
def handle_multi_value_headers (response_headers : List (Str × Str)) :
    List (Str × Str) × List (Str × List Str) :=
  let lowered := response_headers.map fun p => (listLower p.1, p.2)
  let grouped := (firstKeys lowered).map fun n =>
    (n, (lowered.filter fun p => p.1 == n).map Prod.snd)
  (grouped.filterMap fun g =>
     match g.2 with
     | [v] => some (g.1, v)
     | _ => none,
   grouped.filter fun g => 2 ≤ g.2.length)

/-- Embedding of `AwsAlb.handle_headers`: when the event has a
`multiValueHeaders` key both maps pass through unchanged; otherwise each
multi-valued name has its values written into the single-valued map under
successive case permutations of the name (`zip` silently drops values
beyond the available casings) and the multi-value map is emptied. -/
def handle_headers (ev : Event) (response_headers : List (Str × Str)) :
    List (Str × Str) × List (Str × List Str) :=
  let hm := handle_multi_value_headers response_headers
  if ev.hasMultiValueHeadersKey then hm
  else
    (hm.2.foldl
      (fun hs kv =>
        if 1 < kv.2.length then
          (kv.2.zip (all_casings kv.1)).foldl (fun hs2 vc => dictInsert hs2 vc.2 vc.1) hs
        else hs)
      hm.1,
     [])

/-- Embedding of `AwsAlb.transform_response`.  The base64 response-body
policy (`AbstractHandler._handle_base64_response_body`) is an external
collaborator passed as a parameter; the reply carries its body and flag
through untouched. -/
def transform_response (b64policy : Str → List (Str × Str) → Str × Bool)
    (ev : Event) (response : Response) : Reply :=
  let hm := handle_headers ev response.headers
  { statusCode := response.status
    headers := hm.1
    multiValueHeaders := hm.2
    body := (b64policy response.body hm.1).1
    isBase64Encoded := (b64policy response.body hm.1).2 }

/-- Headers of a produced request, when one was produced. -/
def requestHeaders (e : Except PyErr Request) : Option (List (Str × Str)) :=
  match e with
  | Except.ok r => some r.headers
  | Except.error _ => none

/-- Path of a produced request, when one was produced. -/
def requestPath (e : Except PyErr Request) : Option Str :=
  match e with
  | Except.ok r => some r.path
  | Except.error _ => none

/-- Header pairs of the raw event (empty when the key is absent). -/
def eventHeadersList (ev : Event) : List (Str × Str) :=
  match ev.headers with
  | some hs => hs
  | none => []

/-- Specification-side description of Python dict-comprehension collapse:
the value of the last source pair whose lower-cased name matches. -/
def lastMatch : List (Str × Str) → Str → Option Str
  | [], _ => none
  | p :: rest, k =>
    match lastMatch rest k with
    | some v => some v
    | none => if listLower p.1 == k then some p.2 else none

/-- Concrete event used to exhibit the adapter's behavior on duplicate
header casings and the no-`host` fallback. -/
def sampleEvent : Event :=
  { path := some (str ("/"))
    httpMethod := some (str ("GET"))
    headers := some [(str ("Foo"), str ("1")), (str ("foo"), str ("2")),
                     (str ("X-Forwarded-Port"), str ("8080"))]
    queryStringParameters := none
    multiValueQueryStringParameters := none
    body := none
    isBase64Encoded := false
    hasMultiValueHeadersKey := false }

/-- The request the adapter produces from `sampleEvent`. -/
def sampleRequest : Request :=
  { method := str ("GET")
    headers := [(str ("foo"), str ("2")), (str ("x-forwarded-port"), str ("8080"))]
    path := str ("/")
    scheme := str ("https")
    query_string := []
    server := (str ("mangum"), 8080)
    client := ([], 0)
    trigger_event := sampleEvent }

theorem sample_request_eq : request sampleEvent = Except.ok sampleRequest := by rfl

/-- Elimination form for a successful `request`: the event had `path` and
`httpMethod` keys, the server computation succeeded, and the request is
the record the source builds. -/
theorem request_ok_elim {ev : Event} {req : Request} (h : request ev = Except.ok req) :
    ∃ path method server,
      ev.path = some path ∧ ev.httpMethod = some method ∧
      serverOf (loweredHeaders ev) = Except.ok server ∧
      req = { method := method
              headers := loweredHeaders ev
              path := unquote (if path.isEmpty then str ("/") else path)
              scheme := (dictGet (loweredHeaders ev) (str ("x-forwarded-proto"))).getD (str ("https"))
              query_string := encode_query_string ev
              server := server
              client := ((dictGet (loweredHeaders ev) (str ("x-forwarded-for"))).getD [], 0)
              trigger_event := ev } := by
  unfold request at h
  cases hp : ev.path with
  | none => rw [hp] at h; exact absurd h (by simp)
  | some path =>
    rw [hp] at h
    cases hm : ev.httpMethod with
    | none => rw [hm] at h; exact absurd h (by simp)
    | some method =>
      rw [hm] at h
      cases hs : serverOf (loweredHeaders ev) with
      | error e => rw [hs] at h; exact absurd h (by simp)
      | ok server =>
        rw [hs] at h
        injection h with h2
        exact ⟨path, method, server, rfl, rfl, rfl, h2.symm⟩

/-- C7: encode_query_string takes its parameters from
multiValueQueryStringParameters when present and non-empty, otherwise
from queryStringParameters; with no parameters from either source it
returns the empty byte string. -/
theorem claim_C7 :
    (∀ ev : Event,
      (ev.multiValueQueryStringParameters = none ∨ ev.multiValueQueryStringParameters = some []) →
      (ev.queryStringParameters = none ∨ ev.queryStringParameters = some []) →
      encode_query_string ev = []) ∧
    (∀ (ev : Event) (ps : List (Str × List Str)),
      ev.multiValueQueryStringParameters = some ps → ps ≠ [] →
      encode_query_string ev =
        urlencode (ps.flatMap fun kv => kv.2.map fun v => (unquotePlus kv.1, unquotePlus v))) ∧
    (∀ (ev : Event) (ps : List (Str × Str)),
      (ev.multiValueQueryStringParameters = none ∨ ev.multiValueQueryStringParameters = some []) →
      ev.queryStringParameters = some ps → ps ≠ [] →
      encode_query_string ev =
        urlencode (ps.map fun kv => (unquotePlus kv.1, unquotePlus kv.2))) := by
  refine ⟨?_, ?_, ?_⟩
  · intro ev h1 h2
    rcases h1 with h1 | h1 <;> rcases h2 with h2 | h2 <;>
      simp [encode_query_string, encodeQsp, h1, h2]
  · intro ev ps h1 h2
    simp [encode_query_string, h1, h2]
  · intro ev ps h1 h2 h3
    rcases h1 with h1 | h1 <;>
      simp [encode_query_string, encodeQsp, h1, h2, h3]

theorem claim_C7_witness :
    encode_query_string
      { path := none, httpMethod := none, headers := none,
        queryStringParameters := some [], multiValueQueryStringParameters := none,
        body := none, isBase64Encoded := false, hasMultiValueHeadersKey := false } = [] :=
  claim_C7.1 _ (Or.inl rfl) (Or.inr rfl)

/-- C9: a missing body key yields the empty byte string, and a base64
body decodes to its raw bytes; the payload aGVsbG8= decodes to hello. -/
theorem claim_C9 :
    (∀ ev : Event, ev.body = none → body ev = Except.ok []) ∧
    (∀ ev : Event, ev.isBase64Encoded = true → ev.body = some (str ("aGVsbG8=")) →
      body ev = Except.ok (str ("hello"))) := by
  constructor
  · intro ev h
    unfold body
    rw [h]
    cases hb : ev.isBase64Encoded
    · simp [hb]
    · simp only [hb]
      rfl
  · intro ev h1 h2
    unfold body
    rw [h1, h2]
    simp only [if_true]
    rfl

theorem claim_C9_witness :
    body { path := none, httpMethod := none, headers := none,
           queryStringParameters := none, multiValueQueryStringParameters := none,
           body := some (str ("aGVsbG8=")), isBase64Encoded := true,
           hasMultiValueHeadersKey := false } = Except.ok (str ("hello")) :=
  claim_C9.2 _ rfl rfl

/-- C5 counterexample: a malformed percent-escape raises nothing — the
request is produced with the invalid escape kept literally, so no
DecodingError (or any error) occurs. -/
theorem claim_C5_counterexample :
    requestPath (request
      { path := some (str ("/a%zz")), httpMethod := some (str ("GET")),
        headers := none, queryStringParameters := none,
        multiValueQueryStringParameters := none, body := none,
        isBase64Encoded := false, hasMultiValueHeadersKey := false })
      = some (str ("/a%zz")) := by rfl

/-- C5 amended: a missing path or httpMethod key raises KeyError (not
MalformedEventError); a malformed base64 body raises the binascii
decoding error (not DecodingError); malformed percent-encoding raises
nothing; all errors are synchronous values and no partial result is
produced. -/
theorem claim_C5_amended :
    (∀ ev : Event, ev.path = none →
      request ev = Except.error (PyErr.keyError (str ("path")))) ∧
    (∀ (ev : Event) (p : Str), ev.path = some p → ev.httpMethod = none →
      request ev = Except.error (PyErr.keyError (str ("httpMethod")))) ∧
    (∀ (ev : Event) (b : Str) (e : PyErr), ev.isBase64Encoded = true →
      ev.body = some b → b64decode b = Except.error e → body ev = Except.error e) ∧
    body { path := none, httpMethod := none, headers := none,
           queryStringParameters := none, multiValueQueryStringParameters := none,
           body := some (str ("abc")), isBase64Encoded := true,
           hasMultiValueHeadersKey := false } = Except.error PyErr.binasciiError := by
  refine ⟨?_, ?_, ?_, ?_⟩
  · intro ev h
    unfold request
    rw [h]
  · intro ev p h1 h2
    unfold request
    rw [h1, h2]
  · intro ev b e h1 h2 h3
    unfold body
    rw [h2, h1, if_pos rfl]
    exact h3
  · rfl

theorem claim_C5_amended_witness :
    request { path := none, httpMethod := some (str ("GET")), headers := none,
              queryStringParameters := none, multiValueQueryStringParameters := none,
              body := none, isBase64Encoded := false, hasMultiValueHeadersKey := false }
      = Except.error (PyErr.keyError (str ("path"))) :=
  claim_C5_amended.1 _ rfl

/-- C8 counterexample: an event with the path key missing is not
normalized to the root path — the request raises KeyError instead. -/
theorem claim_C8_counterexample :
    request { path := none, httpMethod := some (str ("GET")), headers := none,
              queryStringParameters := none, multiValueQueryStringParameters := none,
              body := none, isBase64Encoded := false, hasMultiValueHeadersKey := true }
        = Except.error (PyErr.keyError (str ("path"))) ∧
    requestPath (request
      { path := none, httpMethod := some (str ("GET")), headers := none,
        queryStringParameters := none, multiValueQueryStringParameters := none,
        body := none, isBase64Encoded := false, hasMultiValueHeadersKey := true })
      ≠ some (str ("/")) := by
  constructor
  · rfl
  · decide

/-- C8 amended: an empty path value is normalized to the root path and
the path is percent-decoded exactly once, with /a%20b decoding to /a b;
a missing path key, however, raises KeyError rather than being
normalized. -/
theorem claim_C8_amended :
    (∀ ev : Event, ev.path = none →
      request ev = Except.error (PyErr.keyError (str ("path")))) ∧
    (∀ (ev : Event) (req : Request), request ev = Except.ok req →
      ev.path = some [] → req.path = str ("/")) ∧
    (∀ (ev : Event) (req : Request) (p : Str), request ev = Except.ok req →
      ev.path = some p → p ≠ [] → req.path = unquote p) ∧
    (∀ (ev : Event) (req : Request), request ev = Except.ok req →
      ev.path = some (str ("/a%20b")) → req.path = str ("/a b")) := by
  refine ⟨?_, ?_, ?_, ?_⟩
  · intro ev h
    unfold request
    rw [h]
  · intro ev req h hp
    obtain ⟨p0, m, server, hp0, hm, hs, hreq⟩ := request_ok_elim h
    rw [hp0] at hp
    injection hp with hp
    subst hp
    rw [hreq]
    rfl
  · intro ev req p h hp hne
    obtain ⟨p0, m, server, hp0, hm, hs, hreq⟩ := request_ok_elim h
    rw [hp0] at hp
    injection hp with hp
    subst hp
    rw [hreq]
    simp [List.isEmpty_iff, hne]
  · intro ev req h hp
    obtain ⟨p0, m, server, hp0, hm, hs, hreq⟩ := request_ok_elim h
    rw [hp0] at hp
    injection hp with hp
    subst hp
    rw [hreq]
    rfl

theorem claim_C8_amended_witness : sampleRequest.path = str ("/") := by
  have h := claim_C8_amended.2.2.1 sampleEvent sampleRequest (str ("/"))
    sample_request_eq rfl (by decide)
  rw [h]
  rfl

/-- C10: with no host header the server name is the literal mangum and
the port comes from x-forwarded-port, defaulting to 80. -/
theorem claim_C10 (ev : Event) (req : Request) (h : request ev = Except.ok req)
    (hh : dictGet (loweredHeaders ev) (str ("host")) = none) :
    req.server.1 = str ("mangum") ∧
    (dictGet (loweredHeaders ev) (str ("x-forwarded-port")) = none → req.server.2 = 80) ∧
    (∀ s : Str, dictGet (loweredHeaders ev) (str ("x-forwarded-port")) = some s →
      parseInt s = some req.server.2) := by
  obtain ⟨p0, m, server, hp0, hm, hs, hreq⟩ := request_ok_elim h
  unfold serverOf at hs
  rw [hh] at hs
  simp only [Option.getD_none] at hs
  rw [if_neg (by decide)] at hs
  have hserver : req.server = server := by rw [hreq]
  cases hx : dictGet (loweredHeaders ev) (str ("x-forwarded-port")) with
  | none =>
    rw [hx] at hs
    injection hs with hs
    refine ⟨?_, ?_, ?_⟩
    · rw [hserver, ← hs]
    · intro _; rw [hserver, ← hs]
    · intro s hsome; exact Option.noConfusion hsome
  | some s0 =>
    rw [hx] at hs
    have hs2 : (match parseInt s0 with
        | some k => Except.ok ((str ("mangum")), k)
        | none => Except.error PyErr.valueError) = Except.ok server := hs
    cases hpi : parseInt s0 with
    | none => rw [hpi] at hs2; exact absurd hs2 (by simp)
    | some k =>
      rw [hpi] at hs2
      injection hs2 with hs2
      refine ⟨?_, ?_, ?_⟩
      · rw [hserver, ← hs2]
      · intro hnone; exact Option.noConfusion hnone
      · intro s hsome
        injection hsome with hsome
        subst hsome
        rw [hserver, ← hs2]
        exact hpi

theorem claim_C10_witness : sampleRequest.server.1 = str ("mangum") :=
  (claim_C10 sampleEvent sampleRequest sample_request_eq (by decide)).1

/-- C1: with no multiValueHeaders key in the event, a response carrying
Set-Cookie a then Set-Cookie b yields a reply whose single-valued header
map holds exactly the two casings set-cookie and Set-cookie mapping to a
and b, with an empty multiValueHeaders map. -/
theorem claim_C1 (b64policy : Str → List (Str × Str) → Str × Bool) (ev : Event)
    (h : ev.hasMultiValueHeadersKey = false) (status : Int) (rbody : Str) :
    (transform_response b64policy ev
        { status := status
          headers := [(str ("Set-Cookie"), str ("a")), (str ("Set-Cookie"), str ("b"))]
          body := rbody }).headers
      = [(str ("set-cookie"), str ("a")), (str ("Set-cookie"), str ("b"))] ∧
    (transform_response b64policy ev
        { status := status
          headers := [(str ("Set-Cookie"), str ("a")), (str ("Set-Cookie"), str ("b"))]
          body := rbody }).multiValueHeaders = [] := by
  unfold transform_response handle_headers
  rw [h]
  constructor
  · rfl
  · rfl

theorem claim_C1_witness :
    (transform_response (fun b _ => (b, false))
        { path := none, httpMethod := none, headers := none,
          queryStringParameters := none, multiValueQueryStringParameters := none,
          body := none, isBase64Encoded := false, hasMultiValueHeadersKey := false }
        { status := 200
          headers := [(str ("Set-Cookie"), str ("a")), (str ("Set-Cookie"), str ("b"))]
          body := [] }).headers
      = [(str ("set-cookie"), str ("a")), (str ("Set-cookie"), str ("b"))] :=
  (claim_C1 _ _ rfl 200 []).1

/-- C3 counterexample: with the multiValueHeaders key present, the
single-valued header map is not left empty — a singly-occurring response
header stays in it. -/
theorem claim_C3_counterexample :
    (transform_response (fun b _ => (b, false))
        { path := none, httpMethod := none, headers := none,
          queryStringParameters := none, multiValueQueryStringParameters := none,
          body := none, isBase64Encoded := false, hasMultiValueHeadersKey := true }
        { status := 200, headers := [(str ("Content-Type"), str ("text"))], body := [] }).headers
      ≠ [] := by decide

/-- C3 amended: with the multiValueHeaders key present both header maps
pass through unmodified from the partition — the single-valued map keeps
the singly-occurring headers rather than being emptied; in particular for
Set-Cookie a then b the reply's multi-value map holds set-cookie with a,b
in order and the single-valued map has no entry at all. -/
theorem claim_C3_amended :
    (∀ (b64policy : Str → List (Str × Str) → Str × Bool) (ev : Event) (resp : Response),
      ev.hasMultiValueHeadersKey = true →
      (transform_response b64policy ev resp).headers
          = (handle_multi_value_headers resp.headers).1 ∧
      (transform_response b64policy ev resp).multiValueHeaders
          = (handle_multi_value_headers resp.headers).2) ∧
    (∀ (b64policy : Str → List (Str × Str) → Str × Bool) (ev : Event)
        (status : Int) (rbody : Str),
      ev.hasMultiValueHeadersKey = true →
      (transform_response b64policy ev
          { status := status
            headers := [(str ("Set-Cookie"), str ("a")), (str ("Set-Cookie"), str ("b"))]
            body := rbody }).multiValueHeaders
        = [(str ("set-cookie"), [str ("a"), str ("b")])] ∧
      (transform_response b64policy ev
          { status := status
            headers := [(str ("Set-Cookie"), str ("a")), (str ("Set-Cookie"), str ("b"))]
            body := rbody }).headers = []) := by
  constructor
  · intro b64policy ev resp h
    unfold transform_response handle_headers
    rw [h]
    exact ⟨rfl, rfl⟩
  · intro b64policy ev status rbody h
    unfold transform_response handle_headers
    rw [h]
    exact ⟨rfl, rfl⟩

theorem claim_C3_amended_witness :
    (transform_response (fun b _ => (b, false))
        { path := none, httpMethod := none, headers := none,
          queryStringParameters := none, multiValueQueryStringParameters := none,
          body := none, isBase64Encoded := false, hasMultiValueHeadersKey := true }
        { status := 200
          headers := [(str ("Set-Cookie"), str ("a")), (str ("Set-Cookie"), str ("b"))]
          body := [] }).multiValueHeaders
      = [(str ("set-cookie"), [str ("a"), str ("b")])] :=
  (claim_C3_amended.2 _ _ 200 [] rfl).1

theorem length_flatMapPair {α β : Type} (l : List α) (f g : α → β) :
    (l.flatMap fun x => [f x, g x]).length = 2 * l.length := by
  induction l with
  | nil => rfl
  | cons a l ih => simp [List.flatMap_cons, ih]; omega

theorem get_flatMapPair {α β : Type} (l : List α) (f g : α → β) (j : Nat) (x : α)
    (h : l[j]? = some x) :
    ((l.flatMap fun a => [f a, g a])[2 * j]? = some (f x)) ∧
    ((l.flatMap fun a => [f a, g a])[2 * j + 1]? = some (g x)) := by
  induction l generalizing j with
  | nil => simp at h
  | cons a l ih =>
    cases j with
    | zero =>
      have hx : a = x := by simpa using h
      subst hx
      refine ⟨rfl, ?_⟩
      simp [List.flatMap_cons]
    | succ j =>
      have h2 : l[j]? = some x := by simpa using h
      have h3 := ih j h2
      have e1 : 2 * (j + 1) = 2 * j + 1 + 1 := by omega
      have e2 : 2 * (j + 1) + 1 = 2 * j + 1 + 1 + 1 := by omega
      constructor
      · rw [e1]
        simpa [List.flatMap_cons] using h3.1
      · rw [e2]
        simpa [List.flatMap_cons] using h3.2

theorem all_casings_cons (c : Nat) (s : Str) :
    all_casings (c :: s) =
      if byteLower c == byteUpper c then (all_casings s).map fun sub => c :: sub
      else (all_casings s).flatMap fun sub => [byteLower c :: sub, byteUpper c :: sub] :=
  rfl

/-- C6: the casing enumeration is a total function whose output has
exactly two to the power of the cased-letter count entries; a non-letter
leading byte is fixed, a letter contributes its lowercase variant at the
even index before its uppercase variant at the odd index; and zipping
duplicate header values against the casings drops excess values silently,
as the concrete three-valued x header shows. -/
theorem claim_C6 :
    (∀ s : Str, (all_casings s).length = 2 ^ countCased s) ∧
    (∀ (c : Nat) (s : Str), byteLower c = byteUpper c →
      all_casings (c :: s) = (all_casings s).map fun sub => c :: sub) ∧
    (∀ (c : Nat) (s : Str) (j : Nat) (sub : Str), byteLower c ≠ byteUpper c →
      (all_casings s)[j]? = some sub →
      ((all_casings (c :: s))[2 * j]? = some (byteLower c :: sub)) ∧
      ((all_casings (c :: s))[2 * j + 1]? = some (byteUpper c :: sub))) ∧
    (∀ (values : List Str) (key : Str),
      (values.zip (all_casings key)).length
        = min values.length (all_casings key).length) ∧
    ((handle_headers
        { path := none, httpMethod := none, headers := none,
          queryStringParameters := none, multiValueQueryStringParameters := none,
          body := none, isBase64Encoded := false, hasMultiValueHeadersKey := false }
        [(str ("x"), str ("1")), (str ("x"), str ("2")), (str ("x"), str ("3"))]).1
      = [(str ("x"), str ("1")), (str ("X"), str ("2"))]) := by
  refine ⟨?_, ?_, ?_, ?_, ?_⟩
  · intro s
    induction s with
    | nil => rfl
    | cons c s ih =>
      unfold all_casings countCased
      by_cases hc : byteLower c = byteUpper c
      · simp only [hc, beq_self_eq_true, if_true, List.length_map]
        rw [ih]
        unfold countCased
        simp [List.filter_cons, hc]
      · rw [if_neg (by simp [hc])]
        rw [length_flatMapPair, ih]
        unfold countCased
        simp only [List.filter_cons]
        rw [if_pos (by simp [hc])]
        simp [pow_succ]
        ring
  · intro c s hc
    rw [all_casings_cons, if_pos (by simp [hc])]
  · intro c s j sub hc h
    rw [all_casings_cons, if_neg (by simp [hc])]
    exact get_flatMapPair (all_casings s) _ _ j sub h
  · intro values key
    simp [List.length_zip]
  · rfl

theorem claim_C6_witness :
    ((all_casings (97 :: []))[2 * 0]? = some (byteLower 97 :: [])) ∧
    ((all_casings (97 :: []))[2 * 0 + 1]? = some (byteUpper 97 :: [])) :=
  claim_C6.2.2.1 97 [] 0 [] (by decide) rfl

theorem dictGet_nil (k : Str) : dictGet [] k = none := rfl

theorem dictGet_cons (p : Str × Str) (d : List (Str × Str)) (k : Str) :
    dictGet (p :: d) k = if p.1 = k then some p.2 else dictGet d k := by
  by_cases hc : p.1 = k
  · rw [if_pos hc]
    unfold dictGet
    rw [List.find?_cons_of_pos _ (by simp [hc])]
    rfl
  · rw [if_neg hc]
    unfold dictGet
    rw [List.find?_cons_of_neg _ (by simp [hc])]

theorem dictGet_append_one_of_none (d : List (Str × Str)) (k v kq : Str)
    (h : dictGet d kq = none) :
    dictGet (d ++ [(k, v)]) kq = if kq = k then some v else none := by
  induction d with
  | nil =>
    rw [List.nil_append, dictGet_cons, dictGet_nil]
    by_cases hc : kq = k
    · rw [if_pos hc.symm, if_pos hc]
    · rw [if_neg (fun h2 => hc h2.symm), if_neg hc]
  | cons p d ih =>
    rw [dictGet_cons] at h
    rw [List.cons_append, dictGet_cons]
    by_cases hc : p.1 = kq
    · rw [if_pos hc] at h
      exact absurd h (by simp)
    · rw [if_neg hc] at h
      rw [if_neg hc]
      exact ih h

theorem dictGet_append_one_of_some (d : List (Str × Str)) (k v kq v0 : Str)
    (h : dictGet d kq = some v0) :
    dictGet (d ++ [(k, v)]) kq = some v0 := by
  induction d with
  | nil => rw [dictGet_nil] at h; exact absurd h (by simp)
  | cons p d ih =>
    rw [dictGet_cons] at h
    rw [List.cons_append, dictGet_cons]
    by_cases hc : p.1 = kq
    · rw [if_pos hc] at h
      rw [if_pos hc]
      exact h
    · rw [if_neg hc] at h
      rw [if_neg hc]
      exact ih h

theorem dictGet_replace_ne (d : List (Str × Str)) (k v kq : Str) (hne : kq ≠ k) :
    dictGet (d.map fun p => if p.1 == k then (k, v) else p) kq = dictGet d kq := by
  induction d with
  | nil => rfl
  | cons p d ih =>
    simp only [List.map_cons]
    by_cases hc : p.1 = k
    · have e : (if (p.1 == k) = true then (k, v) else p) = (k, v) := by simp [hc]
      rw [e, dictGet_cons, dictGet_cons]
      rw [if_neg (fun h2 => hne h2.symm), if_neg (by rw [hc]; exact fun h2 => hne h2.symm)]
      exact ih
    · have e : (if (p.1 == k) = true then (k, v) else p) = p := by simp [hc]
      rw [e, dictGet_cons, dictGet_cons]
      by_cases hq : p.1 = kq
      · rw [if_pos hq, if_pos hq]
      · rw [if_neg hq, if_neg hq]
        exact ih

theorem dictGet_replace_hit (d : List (Str × Str)) (k v : Str)
    (hany : (d.any fun p => p.1 == k) = true) :
    dictGet (d.map fun p => if p.1 == k then (k, v) else p) k = some v := by
  induction d with
  | nil => simp at hany
  | cons p d ih =>
    simp only [List.map_cons]
    by_cases hc : p.1 = k
    · have e : (if (p.1 == k) = true then (k, v) else p) = (k, v) := by simp [hc]
      rw [e, dictGet_cons, if_pos rfl]
    · have e : (if (p.1 == k) = true then (k, v) else p) = p := by simp [hc]
      rw [e, dictGet_cons, if_neg hc]
      apply ih
      simp only [List.any_cons] at hany
      simpa [hc] using hany

theorem dictGet_dictInsert (d : List (Str × Str)) (k v kq : Str) :
    dictGet (dictInsert d k v) kq = if kq = k then some v else dictGet d kq := by
  unfold dictInsert
  by_cases hany : (d.any fun p => p.1 == k) = true
  · rw [if_pos hany]
    by_cases hq : kq = k
    · rw [if_pos hq, hq]
      exact dictGet_replace_hit d k v hany
    · rw [if_neg hq]
      exact dictGet_replace_ne d k v kq hq
  · rw [if_neg hany]
    have hnone : dictGet d k = none := by
      have hall : ∀ p ∈ d, ¬((fun p : Str × Str => p.1 == k) p = true) := by
        intro p hp hcontra
        exact hany (List.any_eq_true.mpr ⟨p, hp, hcontra⟩)
      unfold dictGet
      rw [List.find?_eq_none.mpr hall]
      rfl
    by_cases hq : kq = k
    · rw [if_pos hq, hq]
      rw [dictGet_append_one_of_none d k v k hnone, if_pos rfl]
    · rw [if_neg hq]
      cases hd : dictGet d kq with
      | none => rw [dictGet_append_one_of_none d k v kq hd, if_neg hq]
      | some v0 => rw [dictGet_append_one_of_some d k v kq v0 hd]

theorem keys_replace (d : List (Str × Str)) (k v : Str) :
    ((d.map fun p => if p.1 == k then (k, v) else p).map Prod.fst) = d.map Prod.fst := by
  rw [List.map_map]
  apply List.map_congr_left
  intro p _
  by_cases hc : p.1 = k
  · simp [Function.comp, hc]
  · simp [Function.comp, hc]

theorem keys_nodup_dictInsert (d : List (Str × Str)) (k v : Str)
    (hd : (d.map Prod.fst).Nodup) : ((dictInsert d k v).map Prod.fst).Nodup := by
  unfold dictInsert
  by_cases hany : (d.any fun p => p.1 == k) = true
  · rw [if_pos hany, keys_replace]
    exact hd
  · rw [if_neg hany, List.map_append]
    refine List.nodup_append.mpr ⟨hd, by simp, ?_⟩
    intro a ha hb
    simp only [List.map_cons, List.map_nil, List.mem_singleton] at hb
    subst hb
    rcases List.mem_map.mp ha with ⟨p, hp, hpa⟩
    simp only [List.any_eq_true] at hany
    exact hany ⟨p, hp, by simp [hpa]⟩

theorem byteLower_idem (c : Nat) : byteLower (byteLower c) = byteLower c := by
  unfold byteLower
  split_ifs
  all_goals simp_all
  all_goals omega

theorem listLower_idem (s : Str) : listLower (listLower s) = listLower s := by
  unfold listLower
  rw [List.map_map]
  apply List.map_congr_left
  intro c _
  exact byteLower_idem c

theorem lower_dictInsert (d : List (Str × Str)) (k v : Str)
    (hk : k = listLower k) (hd : ∀ q ∈ d, q.1 = listLower q.1) :
    ∀ q ∈ dictInsert d k v, q.1 = listLower q.1 := by
  unfold dictInsert
  by_cases hany : (d.any fun p => p.1 == k) = true
  · rw [if_pos hany]
    intro q hq
    rcases List.mem_map.mp hq with ⟨p, hp, hpq⟩
    subst hpq
    by_cases hc : p.1 = k
    · have e : (if (p.1 == k) = true then (k, v) else p) = (k, v) := by simp [hc]
      rw [e]
      exact hk
    · have e : (if (p.1 == k) = true then (k, v) else p) = p := by simp [hc]
      rw [e]
      exact hd p hp
  · rw [if_neg hany]
    intro q hq
    rcases List.mem_append.mp hq with hq | hq
    · exact hd q hq
    · simp only [List.mem_singleton] at hq
      rw [hq]
      exact hk

theorem lower_headerFold (hs d : List (Str × Str))
    (hd : ∀ q ∈ d, q.1 = listLower q.1) :
    ∀ q ∈ hs.foldl (fun d2 p => dictInsert d2 (listLower p.1) p.2) d,
      q.1 = listLower q.1 := by
  induction hs generalizing d with
  | nil => exact hd
  | cons p hs ih =>
    rw [List.foldl_cons]
    exact ih _ (lower_dictInsert _ _ _ (listLower_idem p.1).symm hd)

theorem nodup_headerFold (hs d : List (Str × Str))
    (hd : (d.map Prod.fst).Nodup) :
    ((hs.foldl (fun d2 p => dictInsert d2 (listLower p.1) p.2) d).map Prod.fst).Nodup := by
  induction hs generalizing d with
  | nil => exact hd
  | cons p hs ih =>
    rw [List.foldl_cons]
    exact ih _ (keys_nodup_dictInsert _ _ _ hd)

theorem dictGet_headerFold (hs d : List (Str × Str)) (k : Str) :
    dictGet (hs.foldl (fun d2 p => dictInsert d2 (listLower p.1) p.2) d) k =
      match lastMatch hs k with
      | some v => some v
      | none => dictGet d k := by
  induction hs generalizing d with
  | nil => rfl
  | cons p hs ih =>
    rw [List.foldl_cons, ih]
    cases hlm : lastMatch hs k with
    | some v => simp [lastMatch, hlm]
    | none =>
      simp only [lastMatch, hlm]
      rw [dictGet_dictInsert]
      by_cases hc : k = listLower p.1
      · rw [if_pos hc, if_pos (by simp [hc])]
      · rw [if_neg hc, if_neg (by simp; exact fun h2 => hc h2.symm)]

/-- C4 counterexample: source headers Foo=1 and foo=2, duplicates
differing only in case, collapse to the single pair foo=2 in the
produced request rather than being preserved as repeated pairs. -/
theorem claim_C4_counterexample :
    requestHeaders (request
      { path := some (str ("/")), httpMethod := some (str ("GET")),
        headers := some [(str ("Foo"), str ("1")), (str ("foo"), str ("2"))],
        queryStringParameters := none, multiValueQueryStringParameters := none,
        body := none, isBase64Encoded := false, hasMultiValueHeadersKey := false })
      = some [(str ("foo"), str ("2"))] ∧
    ((requestHeaders (request
      { path := some (str ("/")), httpMethod := some (str ("GET")),
        headers := some [(str ("Foo"), str ("1")), (str ("foo"), str ("2"))],
        queryStringParameters := none, multiValueQueryStringParameters := none,
        body := none, isBase64Encoded := false, hasMultiValueHeadersKey := false })).getD []).length
      = 1 := by
  constructor
  · rfl
  · rfl

/-- C4 amended: every header name in the produced request is lower-cased
and the names are distinct -- duplicate source headers differing only in
case collapse into a single pair whose value is the last one seen, not
repeated pairs. -/
theorem claim_C4_amended (ev : Event) (req : Request)
    (h : request ev = Except.ok req) :
    (∀ q ∈ req.headers, q.1 = listLower q.1) ∧
    (req.headers.map Prod.fst).Nodup ∧
    (∀ k : Str, dictGet req.headers k = lastMatch (eventHeadersList ev) k) := by
  obtain ⟨p0, m, server, hp0, hm, hs, hreq⟩ := request_ok_elim h
  have hh : req.headers = loweredHeaders ev := by rw [hreq]
  rw [hh]
  cases hhs : ev.headers with
  | none =>
    have hl : loweredHeaders ev = [] := by simp [loweredHeaders, hhs]
    have hel : eventHeadersList ev = [] := by simp [eventHeadersList, hhs]
    rw [hl, hel]
    exact ⟨by simp, by simp, fun k => rfl⟩
  | some hsl =>
    have hel : eventHeadersList ev = hsl := by simp [eventHeadersList, hhs]
    rw [hel]
    by_cases he : hsl.isEmpty = true
    · have he2 : hsl = [] := List.isEmpty_iff.mp he
      subst he2
      have hl : loweredHeaders ev = [] := by simp [loweredHeaders, hhs]
      rw [hl]
      exact ⟨by simp, by simp, fun k => rfl⟩
    · have hl : loweredHeaders ev
          = hsl.foldl (fun d p => dictInsert d (listLower p.1) p.2) [] := by
        simp [loweredHeaders, hhs, he]
      rw [hl]
      refine ⟨lower_headerFold hsl [] (by simp), nodup_headerFold hsl [] (by simp), ?_⟩
      intro k
      rw [dictGet_headerFold]
      cases hlm : lastMatch hsl k with
      | some v => simp
      | none => simp [dictGet_nil]

theorem claim_C4_amended_witness : (sampleRequest.headers.map Prod.fst).Nodup :=
  (claim_C4_amended sampleEvent sampleRequest sample_request_eq).2.1

theorem hexVal_hexDigit : ∀ n < 16, hexVal (hexDigit n) = some n := by decide

theorem hexVal_lt (c a : Nat) (h : hexVal c = some a) : a < 16 := by
  unfold hexVal at h
  split_ifs at h <;> simp_all <;> omega

theorem pctDecode_cons_goodhex (h1 h2 : Nat) (r : List Nat) (a b : Nat)
    (ha : hexVal h1 = some a) (hb : hexVal h2 = some b) :
    pctDecode (37 :: h1 :: h2 :: r) = (16 * a + b) :: pctDecode r := by
  show (match hexVal h1, hexVal h2 with
        | some a, some b => (16 * a + b) :: pctDecode r
        | _, _ => 37 :: pctDecode (h1 :: h2 :: r)) = (16 * a + b) :: pctDecode r
  rw [ha, hb]

theorem pctDecode_cons_badhex (h1 h2 : Nat) (r : List Nat)
    (hno : ∀ a b, hexVal h1 = some a → hexVal h2 = some b → False) :
    pctDecode (37 :: h1 :: h2 :: r) = 37 :: pctDecode (h1 :: h2 :: r) := by
  show (match hexVal h1, hexVal h2 with
        | some a, some b => (16 * a + b) :: pctDecode r
        | _, _ => 37 :: pctDecode (h1 :: h2 :: r)) = 37 :: pctDecode (h1 :: h2 :: r)
  cases hv1 : hexVal h1 with
  | none => rfl
  | some a =>
    cases hv2 : hexVal h2 with
    | none => rfl
    | some b => exact (hno a b hv1 hv2).elim

theorem pctDecode_cons_other (c : Nat) (r : List Nat)
    (hno : ∀ (h1 h2 : Nat) (rest2 : List Nat), c = 37 → r = h1 :: h2 :: rest2 → False) :
    pctDecode (c :: r) = c :: pctDecode r := by
  rw [pctDecode.eq_def]
  split
  · rename_i heq
    exact absurd heq (by simp)
  · rename_i h1 h2 rest2 heq
    injection heq with e1 e2
    exact (hno h1 h2 rest2 e1 e2).elim
  · rename_i x c2 r2 hcon heq
    injection heq with e1 e2
    subst e1
    subst e2
    rfl

theorem pctDecode_cons_ne (c : Nat) (r : List Nat) (h : c ≠ 37) :
    pctDecode (c :: r) = c :: pctDecode r :=
  pctDecode_cons_other c r (fun _ _ _ he _ => h he)

theorem pctDecode_hex (c : Nat) (hc : c < 256) (r : List Nat) :
    pctDecode (37 :: hexDigit (c / 16) :: hexDigit (c % 16) :: r) = c :: pctDecode r := by
  rw [pctDecode_cons_goodhex _ _ r (c / 16) (c % 16)
    (hexVal_hexDigit _ (by omega)) (hexVal_hexDigit _ (by omega))]
  have e : 16 * (c / 16) + c % 16 = c := by omega
  rw [e]

theorem pctDecode_lt (s : Str) (h : ∀ c ∈ s, c < 256) : ∀ c ∈ pctDecode s, c < 256 := by
  induction s using pctDecode.induct with
  | case1 => intro c hc; simp [pctDecode] at hc
  | case2 h1 h2 rest2 a b hb ha ih =>
    intro c hc
    rw [pctDecode_cons_goodhex h1 h2 rest2 a b ha hb] at hc
    rcases List.mem_cons.mp hc with he | hm
    · have la : a < 16 := hexVal_lt h1 a ha
      have lb : b < 16 := hexVal_lt h2 b hb
      omega
    · exact ih (fun c2 hc2 => h c2 (by simp [hc2])) c hm
  | case3 h1 h2 rest2 hno ih =>
    intro c hc
    rw [pctDecode_cons_badhex h1 h2 rest2 hno] at hc
    rcases List.mem_cons.mp hc with he | hm
    · omega
    · exact ih (fun c2 hc2 => h c2 (by simp [hc2])) c hm
  | case4 c0 rest hne ih =>
    intro c hc
    rw [pctDecode_cons_other c0 rest hne] at hc
    rcases List.mem_cons.mp hc with he | hm
    · subst he; exact h c (by simp)
    · exact ih (fun c2 hc2 => h c2 (by simp [hc2])) c hm

theorem hexDigit_ne (n : Nat) :
    hexDigit n ≠ 37 ∧ hexDigit n ≠ 38 ∧ hexDigit n ≠ 43 ∧ hexDigit n ≠ 61 := by
  unfold hexDigit
  split_ifs <;> omega

theorem safe_facts (c : Nat) (h : isSafeByte c = true) :
    c ≠ 37 ∧ c ≠ 38 ∧ c ≠ 43 ∧ c ≠ 61 ∧ c ≠ 32 := by
  simp only [isSafeByte, Bool.or_eq_true, Bool.and_eq_true, decide_eq_true_eq,
    beq_iff_eq] at h
  omega

theorem quotePlus_nil : quotePlus [] = [] := rfl

theorem quotePlus_cons (c : Nat) (s : Str) :
    quotePlus (c :: s) =
      (if isSafeByte c then [c]
       else if c == 32 then [43]
       else [37, hexDigit (c / 16), hexDigit (c % 16)]) ++ quotePlus s := by
  simp [quotePlus]

theorem unquotePlus_quotePlus_append (s t : Str) (hs : ∀ c ∈ s, c < 256) :
    unquotePlus (quotePlus s ++ t) = s ++ unquotePlus t := by
  induction s with
  | nil => rw [quotePlus_nil, List.nil_append, List.nil_append]
  | cons c s ih =>
    have hc : c < 256 := hs c (List.mem_cons_self c s)
    have hrest : ∀ c2 ∈ s, c2 < 256 := fun c2 h2 => hs c2 (List.mem_cons_of_mem c h2)
    have ih2 := ih hrest
    rw [quotePlus_cons, List.append_assoc]
    by_cases hsafe : isSafeByte c = true
    · obtain ⟨h37, h38, h43, h61, h32⟩ := safe_facts c hsafe
      rw [if_pos hsafe]
      show unquotePlus (c :: (quotePlus s ++ t)) = (c :: s) ++ unquotePlus t
      unfold unquotePlus plusToSpace
      rw [List.map_cons]
      have e43 : (if (c == 43) = true then 32 else c) = c := by simp [h43]
      rw [e43, pctDecode_cons_ne c _ h37]
      unfold unquotePlus plusToSpace at ih2
      rw [ih2, List.cons_append]
    · rw [if_neg hsafe]
      by_cases h32 : (c == 32) = true
      · rw [if_pos h32]
        have hc32 : c = 32 := by simpa using h32
        show unquotePlus (43 :: (quotePlus s ++ t)) = (c :: s) ++ unquotePlus t
        unfold unquotePlus plusToSpace
        rw [List.map_cons]
        have e43 : (if ((43 : Nat) == 43) = true then 32 else 43) = 32 := by simp
        rw [e43, pctDecode_cons_ne 32 _ (by omega)]
        unfold unquotePlus plusToSpace at ih2
        rw [ih2, hc32, List.cons_append]
      · rw [if_neg h32]
        show unquotePlus (37 :: hexDigit (c / 16) :: hexDigit (c % 16) :: (quotePlus s ++ t))
            = (c :: s) ++ unquotePlus t
        unfold unquotePlus plusToSpace
        rw [List.map_cons, List.map_cons, List.map_cons]
        have e37 : (if ((37 : Nat) == 43) = true then 32 else 37) = 37 := by simp
        have ed1 : (if (hexDigit (c / 16) == 43) = true then 32 else hexDigit (c / 16))
            = hexDigit (c / 16) := by simp [(hexDigit_ne (c / 16)).2.2.1]
        have ed2 : (if (hexDigit (c % 16) == 43) = true then 32 else hexDigit (c % 16))
            = hexDigit (c % 16) := by simp [(hexDigit_ne (c % 16)).2.2.1]
        rw [e37, ed1, ed2, pctDecode_hex c hc]
        unfold unquotePlus plusToSpace at ih2
        rw [ih2, List.cons_append]

theorem quotePlus_no_special (s : Str) :
    ∀ c ∈ quotePlus s, c ≠ 38 ∧ c ≠ 61 := by
  intro c hcq
  unfold quotePlus at hcq
  rcases List.mem_flatMap.mp hcq with ⟨c0, hc0, hmem⟩
  by_cases hsafe : isSafeByte c0 = true
  · rw [if_pos hsafe] at hmem
    simp only [List.mem_singleton] at hmem
    subst hmem
    obtain ⟨_, h38, _, h61, _⟩ := safe_facts c hsafe
    exact ⟨h38, h61⟩
  · rw [if_neg hsafe] at hmem
    by_cases h32 : (c0 == 32) = true
    · rw [if_pos h32] at hmem
      simp only [List.mem_singleton] at hmem
      subst hmem
      exact ⟨by omega, by omega⟩
    · rw [if_neg h32] at hmem
      simp only [List.mem_cons, List.not_mem_nil, or_false] at hmem
      rcases hmem with h | h | h
      · subst h; exact ⟨by omega, by omega⟩
      · subst h; exact ⟨(hexDigit_ne _).2.1, (hexDigit_ne _).2.2.2⟩
      · subst h; exact ⟨(hexDigit_ne _).2.1, (hexDigit_ne _).2.2.2⟩

theorem unquotePlus_lt (s : Str) (h : ∀ c ∈ s, c < 256) :
    ∀ c ∈ unquotePlus s, c < 256 := by
  unfold unquotePlus
  apply pctDecode_lt
  intro c hc
  unfold plusToSpace at hc
  rcases List.mem_map.mp hc with ⟨c0, hc0, hce⟩
  by_cases h43 : (c0 == 43) = true
  · rw [← hce, if_pos h43]; omega
  · rw [← hce, if_neg h43]; exact h c0 hc0

theorem splitSep_no_sep (sep : Nat) (s : List Nat) (h : sep ∉ s) :
    splitSep sep s = [s] := by
  induction s with
  | nil => rfl
  | cons c rest ih =>
    have hc : c ≠ sep := fun e => h (e ▸ List.mem_cons_self c rest)
    unfold splitSep
    rw [if_neg (by simp [hc]), ih (fun hm => h (List.mem_cons_of_mem c hm))]

theorem splitSep_append (sep : Nat) (f t : List Nat) (hf : sep ∉ f) :
    splitSep sep (f ++ sep :: t) = f :: splitSep sep t := by
  induction f with
  | nil =>
    rw [List.nil_append]
    simp only [splitSep]
    rw [if_pos (by simp)]
  | cons c f2 ih =>
    have hc : c ≠ sep := fun e => hf (e ▸ List.mem_cons_self c f2)
    rw [List.cons_append]
    simp only [splitSep]
    rw [if_neg (by simp [hc]), ih (fun hm => hf (List.mem_cons_of_mem c hm))]

theorem splitFirst_append (sep : Nat) (k v : List Nat) (hk : sep ∉ k) :
    splitFirst sep (k ++ sep :: v) = some (k, v) := by
  induction k with
  | nil =>
    rw [List.nil_append]
    unfold splitFirst
    rw [if_pos (by simp)]
  | cons c k2 ih =>
    have hc : c ≠ sep := fun e => hk (e ▸ List.mem_cons_self c k2)
    rw [List.cons_append]
    unfold splitFirst
    rw [if_neg (by simp [hc]), ih (fun hm => hk (List.mem_cons_of_mem c hm))]
    rfl

theorem joinAmp_cons2 (f f2 : Str) (fs : List Str) :
    joinAmp (f :: f2 :: fs) = f ++ 38 :: joinAmp (f2 :: fs) := rfl

theorem splitSep_joinAmp (fields : List Str) (hne : fields ≠ [])
    (hf : ∀ f ∈ fields, (38 : Nat) ∉ f) :
    splitSep 38 (joinAmp fields) = fields := by
  induction fields with
  | nil => exact absurd rfl hne
  | cons f fs ih =>
    cases fs with
    | nil =>
      show splitSep 38 (joinAmp [f]) = [f]
      have e : joinAmp [f] = f := rfl
      rw [e]
      exact splitSep_no_sep 38 f (hf f (by simp))
    | cons f2 fs2 =>
      rw [joinAmp_cons2, splitSep_append 38 f _ (hf f (by simp)),
        ih (by simp) (fun g hg => hf g (List.mem_cons_of_mem f hg))]

theorem decodeField_enc (p : Str × Str) (h1 : ∀ c ∈ p.1, c < 256)
    (h2 : ∀ c ∈ p.2, c < 256) :
    decodeField (quotePlus p.1 ++ 61 :: quotePlus p.2) = some p := by
  unfold decodeField
  rw [if_neg (by simp)]
  rw [splitFirst_append 61 _ _ (fun hm => (quotePlus_no_special p.1 61 hm).2 rfl)]
  have e0 : unquotePlus ([] : Str) = [] := rfl
  have e1 : unquotePlus (quotePlus p.1) = p.1 := by
    have e := unquotePlus_quotePlus_append p.1 [] h1
    simpa [e0] using e
  have e2 : unquotePlus (quotePlus p.2) = p.2 := by
    have e := unquotePlus_quotePlus_append p.2 [] h2
    simpa [e0] using e
  show some (unquotePlus (quotePlus p.1), unquotePlus (quotePlus p.2)) = some p
  rw [e1, e2]

theorem filterMap_decode_enc (ps : List (Str × Str))
    (h : ∀ p ∈ ps, (∀ c ∈ p.1, c < 256) ∧ (∀ c ∈ p.2, c < 256)) :
    ((ps.map fun p => quotePlus p.1 ++ 61 :: quotePlus p.2).filterMap decodeField) = ps := by
  induction ps with
  | nil => rfl
  | cons p ps ih =>
    rw [List.map_cons]
    have hd := decodeField_enc p (h p (by simp)).1 (h p (by simp)).2
    rw [List.filterMap_cons_some hd,
      ih (fun q hq => h q (List.mem_cons_of_mem p hq))]

theorem formDecode_urlencode (pairs : List (Str × Str))
    (h : ∀ p ∈ pairs, (∀ c ∈ p.1, c < 256) ∧ (∀ c ∈ p.2, c < 256)) :
    formDecode (urlencode pairs) = pairs := by
  cases pairs with
  | nil => rfl
  | cons p0 rest =>
    unfold formDecode urlencode
    rw [splitSep_joinAmp _ (by simp) ?hf]
    case hf =>
      intro f hfm
      rcases List.mem_map.mp hfm with ⟨q, hq, hqe⟩
      rw [← hqe]
      intro hmem
      rcases List.mem_append.mp hmem with hm | hm
      · exact (quotePlus_no_special q.1 38 hm).1 rfl
      · rcases List.mem_cons.mp hm with he | hm2
        · simp at he
        · exact (quotePlus_no_special q.2 38 hm2).1 rfl
    exact filterMap_decode_enc _ h

theorem qsBytes_elim (qs : List (Str × Str)) (h : qsBytesOK (some qs) = true) :
    ∀ kv ∈ qs, (∀ c ∈ kv.1, c < 256) ∧ (∀ c ∈ kv.2, c < 256) := by
  intro kv hkv
  simp only [qsBytesOK, Option.elim_some, List.all_eq_true] at h
  have h2 := h kv hkv
  simp only [allBytesLtB, Bool.and_eq_true, List.all_eq_true, decide_eq_true_eq] at h2
  exact h2

theorem mvBytes_elim (ps : List (Str × List Str)) (h : mvBytesOK (some ps) = true) :
    ∀ kv ∈ ps, (∀ c ∈ kv.1, c < 256) ∧ (∀ v ∈ kv.2, ∀ c ∈ v, c < 256) := by
  intro kv hkv
  simp only [mvBytesOK, Option.elim_some, List.all_eq_true] at h
  have h2 := h kv hkv
  simp only [allBytesLtB, Bool.and_eq_true, List.all_eq_true, decide_eq_true_eq] at h2
  exact h2

theorem encodeQsp_roundtrip (ev : Event) (h2 : qsBytesOK ev.queryStringParameters = true) :
    formDecode (encodeQsp ev)
      = match ev.queryStringParameters with
        | some qs => qs.map fun kv => (unquotePlus kv.1, unquotePlus kv.2)
        | none => [] := by
  cases hq : ev.queryStringParameters with
  | none => simp [encodeQsp, hq]; rfl
  | some qs =>
    rw [hq] at h2
    have hqs := qsBytes_elim qs h2
    by_cases hemp : qs.isEmpty = true
    · have he2 : qs = [] := List.isEmpty_iff.mp hemp
      subst he2
      simp [encodeQsp, hq]
      rfl
    · have e1 : encodeQsp ev
          = urlencode (qs.map fun kv => (unquotePlus kv.1, unquotePlus kv.2)) := by
        simp [encodeQsp, hq, hemp]
      rw [e1]
      have e2 : (match some qs with
          | some qs => qs.map fun kv => (unquotePlus kv.1, unquotePlus kv.2)
          | none => ([] : List (Str × Str)))
          = qs.map fun kv => (unquotePlus kv.1, unquotePlus kv.2) := rfl
      rw [e2]
      apply formDecode_urlencode
      intro p hp
      rcases List.mem_map.mp hp with ⟨kv, hkv, hpe⟩
      rw [← hpe]
      exact ⟨unquotePlus_lt _ (hqs kv hkv).1, unquotePlus_lt _ (hqs kv hkv).2⟩

/-- C2: for every query parameter mapping, single- or multi-valued and
whether pre-encoded zero or one times, form-decoding the byte string
produced by encode_query_string reproduces exactly the percent-decoded
key/value pairs, in order. -/
theorem claim_C2 (ev : Event)
    (h1 : mvBytesOK ev.multiValueQueryStringParameters = true)
    (h2 : qsBytesOK ev.queryStringParameters = true) :
    formDecode (encode_query_string ev) = decodedQueryParams ev := by
  cases hmv : ev.multiValueQueryStringParameters with
  | none =>
    have e1 : encode_query_string ev = encodeQsp ev := by
      simp [encode_query_string, hmv]
    have e2 : decodedQueryParams ev
        = match ev.queryStringParameters with
          | some qs => qs.map fun kv => (unquotePlus kv.1, unquotePlus kv.2)
          | none => [] := by
      simp [decodedQueryParams, hmv]
    rw [e1, e2]
    exact encodeQsp_roundtrip ev h2
  | some ps =>
    by_cases hemp : ps.isEmpty = true
    · have he2 : ps = [] := List.isEmpty_iff.mp hemp
      subst he2
      have e1 : encode_query_string ev = encodeQsp ev := by
        simp [encode_query_string, hmv]
      have e2 : decodedQueryParams ev
          = match ev.queryStringParameters with
            | some qs => qs.map fun kv => (unquotePlus kv.1, unquotePlus kv.2)
            | none => [] := by
        simp [decodedQueryParams, hmv]
      rw [e1, e2]
      exact encodeQsp_roundtrip ev h2
    · rw [hmv] at h1
      have hps := mvBytes_elim ps h1
      have e1 : encode_query_string ev
          = urlencode (ps.flatMap fun kv => kv.2.map fun v => (unquotePlus kv.1, unquotePlus v)) := by
        simp [encode_query_string, hmv, hemp]
      have e2 : decodedQueryParams ev
          = ps.flatMap fun kv => kv.2.map fun v => (unquotePlus kv.1, unquotePlus v) := by
        simp [decodedQueryParams, hmv, hemp]
      rw [e1, e2]
      apply formDecode_urlencode
      intro p hp
      rcases List.mem_flatMap.mp hp with ⟨kv, hkv, hpm⟩
      rcases List.mem_map.mp hpm with ⟨v, hv, hpe⟩
      rw [← hpe]
      exact ⟨unquotePlus_lt _ (hps kv hkv).1, unquotePlus_lt _ ((hps kv hkv).2 v hv)⟩

theorem claim_C2_witness :
    formDecode (encode_query_string
      { path := none, httpMethod := none, headers := none,
        queryStringParameters := some [(str ("k"), str ("v"))],
        multiValueQueryStringParameters :=
          some [(str ("a%20b"), [str ("1"), str ("x+y")]), (str ("c"), [])],
        body := none, isBase64Encoded := false, hasMultiValueHeadersKey := false })
      = decodedQueryParams
      { path := none, httpMethod := none, headers := none,
        queryStringParameters := some [(str ("k"), str ("v"))],
        multiValueQueryStringParameters :=
          some [(str ("a%20b"), [str ("1"), str ("x+y")]), (str ("c"), [])],
        body := none, isBase64Encoded := false, hasMultiValueHeadersKey := false } :=
  claim_C2 _ (by decide) (by decide)
